import Mathlib

/-!
Shallow embedding of the Tunnel Vision poker engine
(`src/utils/models.py`, `src/ml/src/equity.py`, `src/ml/src/decision_engine.py`)
together with proofs settling the specification claims.

Python `float` arithmetic is modelled with exact rationals (`ℚ`), Python
`int` with `ℤ` (or `ℕ` for inherently non-negative counts), and Python
exceptions with `Except Err`.  Randomness (`random.sample`) is abstracted
by an explicit `rng : Nat → List Card` argument supplying the draw of each
sampling round; the exact-enumeration branch never consults it.
-/

/-- The 13 validated card ranks (`Card.__post_init__` closed set). -/
inductive Rank where
  | r2 | r3 | r4 | r5 | r6 | r7 | r8 | r9 | r10 | rJ | rQ | rK | rA
  deriving DecidableEq, Repr

/-- The 4 validated suits. -/
inductive Suit where
  | hearts | diamonds | clubs | spades
  deriving DecidableEq, Repr

/-- `Card`: an already-validated rank/suit pair (frozen dataclass). -/
structure Card where
  rank : Rank
  suit : Suit
  deriving DecidableEq, Repr

/-- Error kinds of the spec's error taxonomy (§7).  All but `typeError`
correspond to Python `ValueError`; `typeError` models Python `TypeError`
(e.g. comparing a `HandScore` with `None`). -/
inductive Err where
  | invalidValue
  | wrongCardCount
  | duplicateCards
  | negativeQuantity
  | invalidArgument
  | insufficientCards
  | typeError
  deriving DecidableEq, Repr

/-- `RANK_ORDER` mapping from `equity.py`. -/
def RANK_ORDER : Rank → Nat
  | .r2 => 2
  | .r3 => 3
  | .r4 => 4
  | .r5 => 5
  | .r6 => 6
  | .r7 => 7
  | .r8 => 8
  | .r9 => 9
  | .r10 => 10
  | .rJ => 11
  | .rQ => 12
  | .rK => 13
  | .rA => 14

/-- `does_contain_duplicate` from `models.py`: `len(set(l)) != len(l)`. -/
def does_contain_duplicate (l : List Card) : Bool :=
  l.dedup.length != l.length

/-- `Hand` dataclass payload (two hole cards). -/
structure Hand where
  cards : List Card
  deriving DecidableEq, Repr

/-- `Hand.__post_init__` as a smart constructor: count then duplicate check. -/
def mkHand (cards : List Card) : Except Err Hand :=
  if cards.length ≠ 2 then .error .wrongCardCount
  else if does_contain_duplicate cards then .error .duplicateCards
  else .ok ⟨cards⟩

/-- `Community` dataclass payload (0–5 board cards). -/
structure Community where
  cards : List Card
  deriving DecidableEq, Repr

/-- `Community.__post_init__`: size bound then duplicate check. -/
def mkCommunity (cards : List Card) : Except Err Community :=
  if cards.length > 5 then .error .wrongCardCount
  else if does_contain_duplicate cards then .error .duplicateCards
  else .ok ⟨cards⟩

/-- `Community.stage`. -/
def Community.stage (c : Community) : Except Err String :=
  let n := c.cards.length
  if n < 3 then .ok "Pre-Flop"
  else if n = 3 then .ok "Flop"
  else if n = 4 then .ok "Turn"
  else if n = 5 then .ok "River"
  else .error .wrongCardCount

/-- `PokerGameState` dataclass payload. -/
structure PokerGameState where
  player_hand : Hand
  community : Community
  player_chips : Int
  pot_size : Int
  deriving DecidableEq, Repr

/-- `PokerGameState.__post_init__`: chips, pot, then cross-set duplicates. -/
def mkPokerGameState (player_hand : Hand) (community : Community)
    (player_chips pot_size : Int) : Except Err PokerGameState :=
  if player_chips < 0 then .error .negativeQuantity
  else if pot_size < 0 then .error .negativeQuantity
  else if does_contain_duplicate (player_hand.cards ++ community.cards) then
    .error .duplicateCards
  else .ok ⟨player_hand, community, player_chips, pot_size⟩

/-- `get_full_deck`: ranks × suits, suits outer loop as in the source. -/
def get_full_deck : List Card :=
  [Suit.hearts, Suit.diamonds, Suit.clubs, Suit.spades].flatMap fun s =>
    [Rank.r2, .r3, .r4, .r5, .r6, .r7, .r8, .r9, .r10, .rJ, .rQ, .rK, .rA].map
      fun r => ⟨r, s⟩

/-- `get_remaining_cards`: deck members not in `used`. -/
def get_remaining_cards (used : List Card) : List Card :=
  get_full_deck.filter fun c => ¬ (c ∈ used)

/-- `HandScore` dataclass: category plus tie-break ranks, ordered
lexicographically by the derived dataclass order. -/
structure HandScore where
  category : Nat
  ranks : List Nat
  deriving DecidableEq, Repr

/-- Python tuple `<` on the rank tuples (lexicographic, shorter prefix is
smaller). -/
def listLtB : List Nat → List Nat → Bool
  | [], [] => false
  | [], _ :: _ => true
  | _ :: _, [] => false
  | a :: as, b :: bs =>
    if a < b then true else if b < a then false else listLtB as bs

/-- The dataclass `order=True` comparison on `HandScore`:
category first, then the rank tuple. -/
def scoreLtB (x y : HandScore) : Bool :=
  if x.category < y.category then true
  else if y.category < x.category then false
  else listLtB x.ranks y.ranks

/-- Python `sorted(ranks, reverse=True)`. -/
def sortDesc (l : List Nat) : List Nat :=
  l.insertionSort (fun a b => a ≥ b)

/-- Python `sorted(l)` on naturals. -/
def sortAsc (l : List Nat) : List Nat :=
  l.insertionSort (fun a b => a ≤ b)

/-- `_straight_high(ranks)`: the body operates on `sorted(set(ranks))`,
appends a low ace when an ace is present, and scans for runs of length 5.
`best == 1` can only be produced by the dead guard the source keeps for the
wheel; it is preserved verbatim. -/
def straight_high (ranks : List Nat) : Option Nat :=
  let unique0 := sortAsc ranks.dedup
  let unique := if 14 ∈ unique0 then sortAsc (unique0 ++ [1]) else unique0
  let best :=
    ((unique.zip unique.tail).foldl
      (fun (rb : Nat × Option Nat) pc =>
        if pc.2 - pc.1 = 1 then
          let run := rb.1 + 1
          (run, if run ≥ 5 then some pc.2 else rb.2)
        else (1, rb.2))
      (1, none)).2
  if best = some 1 then some 5 else best

/-- The distinct ranks of a 5-card rank list (the keys of
`Counter(ranks)`). -/
def rankKeys (ranks : List Nat) : List Nat := ranks.dedup

/-- The multiplicities (`Counter(ranks).values()`). -/
def countValues (ranks : List Nat) : List Nat :=
  (rankKeys ranks).map fun r => ranks.count r

/-- Python `max` over a generator of ranks with a given multiplicity
(`max(rank for rank, cnt in counts.items() if cnt == c)`); every use in
`_score_five_cards` is on a provably non-empty selection, so the `0`
default of the fold is never produced. -/
def maxRankWithCount (ranks : List Nat) (c : Nat) : Nat :=
  (((rankKeys ranks).filter fun r => ranks.count r = c).foldl max 0)

/-- Ranks with a given multiplicity, sorted descending
(`sorted((rank for rank, cnt in counts.items() if cnt == c), reverse=True)`). -/
def ranksWithCountDesc (ranks : List Nat) (c : Nat) : List Nat :=
  sortDesc ((rankKeys ranks).filter fun r => ranks.count r = c)

/-- Body of `_score_five_cards` after the rank/suit projections: `ranks` is
the descending-sorted numeric rank list, `is_flush` says all suits agree. -/
def scoreCore (ranks : List Nat) (is_flush : Bool) : HandScore :=
  let sh := straight_high ranks
  if is_flush ∧ sh.isSome then ⟨8, [sh.getD 0]⟩
  else
    let max_count := (countValues ranks).foldl max 0
    if max_count = 4 then
      ⟨7, [maxRankWithCount ranks 4, maxRankWithCount ranks 1]⟩
    else if (sortDesc (countValues ranks)).take 2 = [3, 2] then
      ⟨6, [maxRankWithCount ranks 3, maxRankWithCount ranks 2]⟩
    else if is_flush then ⟨5, sortDesc ranks⟩
    else if sh.isSome then ⟨4, [sh.getD 0]⟩
    else if max_count = 3 then
      ⟨3, maxRankWithCount ranks 3 :: (ranksWithCountDesc ranks 1).take 2⟩
    else
      let pair_ranks := ranksWithCountDesc ranks 2
      if pair_ranks.length ≥ 2 then
        ⟨2, [pair_ranks[0]?.getD 0, pair_ranks[1]?.getD 0,
             maxRankWithCount ranks 1]⟩
      else if pair_ranks.length = 1 then
        ⟨1, pair_ranks[0]?.getD 0 :: (ranksWithCountDesc ranks 1).take 3⟩
      else ⟨0, sortDesc ranks⟩

/-- `_score_five_cards`. -/
def score_five_cards (cards : List Card) : HandScore :=
  scoreCore (sortDesc (cards.map fun c => RANK_ORDER c.rank))
    ((cards.map fun c => c.suit).dedup.length = 1)

/-- The `best = None / if score > best` accumulator shared by
`evaluate_best_hand` and the villain loop of `estimate_equity`. -/
def maxStep (best : Option HandScore) (score : HandScore) : Option HandScore :=
  match best with
  | none => some score
  | some b => if scoreLtB b score then some score else some b

/-- `evaluate_best_hand`: best `_score_five_cards` over all 5-card subsets.
With at least 5 cards the subset list is non-empty, so the `none` branch
(Python would fall off the loop and return `None`, failing at the next
comparison with a `TypeError`) is unreachable. -/
def evaluate_best_hand (cards : List Card) : Except Err HandScore :=
  if cards.length < 5 then .error .insufficientCards
  else
    match (List.sublistsLen 5 cards).foldl
        (fun best combo => maxStep best (score_five_cards combo)) none with
    | some s => .ok s
    | none => .error .typeError

/-- Result of one simulated showdown. -/
inductive Outcome where
  | win | tie | loss
  deriving DecidableEq, Repr

/-- `EquityEstimate` dataclass. -/
structure EquityEstimate where
  equity : ℚ
  wins : Nat
  ties : Nat
  trials : Nat
  deriving DecidableEq, Repr

/-- Sequential evaluation of a fallible function over a list, stopping at
the first error (the effect of a Python `for` loop that can raise). -/
def exceptMap (f : Nat → Except Err HandScore) : List Nat → Except Err (List HandScore)
  | [] => .ok []
  | i :: is => do
    let s ← f i
    let rest ← exceptMap f is
    pure (s :: rest)

/-- The villain-scoring loop of `estimate_equity`: opponent `i` takes the
two sample cards at offset `missing + 2 * i` and is scored on the completed
board. -/
def villainScores (board sample : List Card) (missing opponents : Nat) :
    Except Err (List HandScore) :=
  exceptMap (fun i =>
      evaluate_best_hand ((sample.drop (missing + 2 * i)).take 2 ++ board))
    (List.range opponents)

/-- One iteration of the scenario loop of `estimate_equity`: complete the
board from the sample, score hero and each villain, compare hero with the
best villain.  Python would hit a `TypeError` comparing with `None` were
the villain list empty. -/
def sampleOutcome (hero_cards board_cards : List Card) (missing opponents : Nat)
    (sample : List Card) : Except Err Outcome := do
  let board := board_cards ++ sample.take missing
  let hero_score ← evaluate_best_hand (hero_cards ++ board)
  let vs ← villainScores board sample missing opponents
  match vs.foldl maxStep none with
  | none => .error .typeError
  | some best_villain =>
    pure (if scoreLtB best_villain hero_score then .win
          else if hero_score = best_villain then .tie else .loss)

/-- Win/tie tallying of a scenario loop: count the wins in the first
component and the ties in the second, aborting on the first error. -/
def countFold (f : List Card → Except Err Outcome) :
    List (List Card) → Nat × Nat → Except Err (Nat × Nat)
  | [], wt => .ok wt
  | s :: rest, wt => do
    let o ← f s
    countFold f rest
      (match o with
       | .win => (wt.1 + 1, wt.2)
       | .tie => (wt.1, wt.2 + 1)
       | .loss => wt)

/-- The scenario source of `estimate_equity`: exhaustive 5-card-subset
enumeration when cheap enough, otherwise `trials` draws from the abstract
sampler `rng`. -/
def equitySamples (remaining : List Card) (needed trials : Nat)
    (rng : Nat → List Card) : List (List Card) :=
  if Nat.choose remaining.length needed ≤ trials then
    List.sublistsLen needed remaining
  else (List.range trials).map rng

/-- `estimate_equity`. -/
def estimate_equity (state : PokerGameState) (opponents trials : Nat)
    (rng : Nat → List Card) : Except Err EquityEstimate :=
  if opponents < 1 then .error .invalidArgument
  else
    let hero_cards := state.player_hand.cards
    let board_cards := state.community.cards
    let remaining := get_remaining_cards (hero_cards ++ board_cards)
    let missing_board := 5 - board_cards.length
    let cards_needed := opponents * 2 + missing_board
    if cards_needed > remaining.length then .error .insufficientCards
    else
      let total_combos := Nat.choose remaining.length cards_needed
      let run_all := total_combos ≤ trials
      let actual_trials := if run_all then total_combos else trials
      let samples := equitySamples remaining cards_needed trials rng
      do
        let wt ← countFold
          (sampleOutcome hero_cards board_cards missing_board opponents)
          samples (0, 0)
        let equity : ℚ :=
          if actual_trials ≠ 0 then
            ((wt.1 : ℚ) + (wt.2 : ℚ) / 2) / (actual_trials : ℚ)
          else 0
        pure ⟨equity, wt.1, wt.2, actual_trials⟩

/-- `HAND_CATEGORY_LABELS`. -/
def HAND_CATEGORY_LABELS (c : Nat) : String :=
  match c with
  | 8 => "Straight Flush"
  | 7 => "Four of a Kind"
  | 6 => "Full House"
  | 5 => "Flush"
  | 4 => "Straight"
  | 3 => "Three of a Kind"
  | 2 => "Two Pair"
  | 1 => "One Pair"
  | 0 => "High Card"
  | _ => "Unknown"

/-- `_score_to_label`: the Royal Flush special case, else the label table. -/
def score_to_label (score : HandScore) : String :=
  if score.category = 8 ∧ score.ranks.head? = some 14 then "Royal Flush"
  else HAND_CATEGORY_LABELS score.category

/-- `HandStrengthDetails` dataclass. -/
structure HandStrengthDetails where
  label : String
  category : Nat
  percentile : Option ℚ
  score : HandScore
  deriving DecidableEq, Repr

/-- One iteration of the percentile loop: score an opposing 2-card holding
on the board and compare it with the player's score (`win` counts into
`better`, `tie` into `ties`). -/
def percentileOutcome (score : HandScore) (board : List Card)
    (combo : List Card) : Except Err Outcome := do
  let opp_score ← evaluate_best_hand (combo ++ board)
  pure (if scoreLtB score opp_score then .win
        else if opp_score = score then .tie else .loss)

/-- `_estimate_percentile_against_other_hands`: fraction of opposing 2-card
holdings beaten on the current board, over exact enumeration or `samples`
draws of the abstract sampler. -/
def estimate_percentile_against_other_hands (score : HandScore) (hand : Hand)
    (community : Community) (samples : Nat) (rng : Nat → List Card) :
    Except Err (Option ℚ) :=
  let board := community.cards
  if board.length < 3 then .ok none
  else
    let remaining := get_remaining_cards (hand.cards ++ board)
    let total_combos := Nat.choose remaining.length 2
    if total_combos = 0 then .ok none
    else
      let run_all := total_combos ≤ samples
      let iterator :=
        if run_all then List.sublistsLen 2 remaining
        else (List.range samples).map rng
      let denom := if run_all then total_combos else samples
      do
        let bt ← countFold (percentileOutcome score board) iterator (0, 0)
        if denom ≠ 0 then
          let percentile : ℚ := 1 - ((bt.1 : ℚ) + (bt.2 : ℚ) / 2) / (denom : ℚ)
          pure (some (max 0 (min 1 percentile)))
        else pure none

/-- `describe_made_hand`. -/
def describe_made_hand (hand : Hand) (community : Community)
    (percentile_samples : Nat) (rng : Nat → List Card) :
    Except Err (Option HandStrengthDetails) := do
  let total_cards := hand.cards ++ community.cards
  if total_cards.length < 5 then pure none
  else do
    let score ← evaluate_best_hand total_cards
    let label := score_to_label score
    let percentile ← estimate_percentile_against_other_hands score hand
      community percentile_samples rng
    pure (some ⟨label, score.category, percentile, score⟩)

/-- Strategy profiles. -/
inductive StrategyProfile where
  | tight | balanced | aggressive
  deriving DecidableEq, Repr

/-- Action types. -/
inductive ActionType where
  | fold | call | raise
  deriving DecidableEq, Repr

/-- `DecisionContext`.  `opponent_range` and `notes` are display-only
metadata never read by the engine and are not modelled. -/
structure DecisionContext where
  pot_to_call : Option Int := none
  min_raise : Option Int := none
  strategy_profile : StrategyProfile := .balanced
  equity_samples : Nat := 2000
  num_opponents : Nat := 1
  deriving DecidableEq, Repr

/-- `DecisionResult`.  The `rationale` list of display strings (free-form
formatted text) is not modelled; all decision-bearing fields are. -/
structure DecisionResult where
  action : ActionType
  confidence : ℚ
  recommended_bet : Option Int
  strategy_profile : StrategyProfile
  equity : Option ℚ
  deriving DecidableEq, Repr

/-- `Street` enum. -/
inductive Street where
  | preFlop | flop | turn | river
  deriving DecidableEq, Repr

/-- `Street.from_community`: `Street(community.stage())`; an unknown enum
value would raise `ValueError`, modelled by the catch-all branch. -/
def Street.from_community (community : Community) : Except Err Street := do
  let s ← community.stage
  match s with
  | "Pre-Flop" => pure .preFlop
  | "Flop" => pure .flop
  | "Turn" => pure .turn
  | "River" => pure .river
  | _ => .error .invalidValue

/-- `DecisionEngine._rank_strength`.  Every `Rank` is a key, so the `0.1`
default of `dict.get` is unreachable and not modelled. -/
def rank_strength : Rank → ℚ
  | .r2 => 0.05
  | .r3 => 0.08
  | .r4 => 0.11
  | .r5 => 0.14
  | .r6 => 0.18
  | .r7 => 0.22
  | .r8 => 0.26
  | .r9 => 0.3
  | .r10 => 0.36
  | .rJ => 0.42
  | .rQ => 0.5
  | .rK => 0.58
  | .rA => 0.68

/-- Index of a rank in the `_rank_strength` key list
(`rank_order.index(card.rank)` in `_has_straight_draw`). -/
def rankIdx (r : Rank) : Nat := RANK_ORDER r - 2

/-- `DecisionEngine._has_pair`. -/
def has_pair (cards : List Card) : Bool :=
  (cards.map fun c => c.rank).dedup.length != (cards.map fun c => c.rank).length

/-- `DecisionEngine._has_flush_draw`. -/
def has_flush_draw (cards : List Card) : Bool :=
  if cards.length < 4 then false
  else
    let suits := cards.map fun c => c.suit
    ((suits.dedup.map fun s => suits.count s).foldl max 0) ≥ 4

/-- `DecisionEngine._has_straight_draw`. -/
def has_straight_draw (cards : List Card) : Bool :=
  let indices := sortAsc ((cards.map fun c => rankIdx c.rank).dedup)
  let best :=
    ((indices.zip indices.tail).foldl
      (fun (rb : Nat × Nat) pc =>
        if pc.2 - pc.1 = 1 then (rb.1 + 1, max rb.2 (rb.1 + 1))
        else (1, rb.2))
      (1, 1)).2
  best ≥ 4

/-- `DecisionEngine._estimate_strength`.  The hole-card indexing `[0]`,
`[1]` is modelled with defaulted head access; the claims only apply it to
validated two-card hands, where the default is never used. -/
def estimate_strength (hand : Hand) (community : Community) : ℚ :=
  let base0 := ((hand.cards.map fun c => rank_strength c.rank).foldl (· + ·) 0) / 2
  let c0 := hand.cards.headD ⟨.r2, .hearts⟩
  let c1 := (hand.cards.drop 1).headD ⟨.r2, .hearts⟩
  let base1 := if c0.rank = c1.rank then base0 + 0.2 else base0
  let base2 := if c0.suit = c1.suit then base1 + 0.05 else base1
  let board := community.cards
  if board.isEmpty then min base2 0.95
  else
    let board_values := (board.map fun c => rank_strength c.rank).foldl (· + ·) 0
    let base3 := base2 + board_values / 10
    let combined := hand.cards ++ board
    let base4 := if has_pair combined then base3 + 0.05 else base3
    let base5 := if has_flush_draw combined then base4 + 0.04 else base4
    let base6 := if has_straight_draw combined then base5 + 0.04 else base5
    max 0.05 (min base6 0.99)

/-- `DecisionEngine._compute_pot_odds`. -/
def compute_pot_odds (pot_size : Int) (to_call : Option Int) : Option ℚ :=
  match to_call with
  | none => none
  | some c => if c ≤ 0 then none else some ((c : ℚ) / ((pot_size : ℚ) + (c : ℚ)))

/-- `DecisionEngine._apply_policy`.  The float literal `1e-6` is modelled
by the exact rational `1/1000000`. -/
def apply_policy (strength : ℚ) (pot_odds : Option ℚ)
    (strategy : StrategyProfile) : ActionType × ℚ :=
  let fold_thresh : ℚ :=
    match strategy with
    | .tight => 0.38 + 0.05
    | .aggressive => 0.38 - 0.05
    | .balanced => 0.38
  let raise_thresh : ℚ :=
    match strategy with
    | .tight => 0.65 + 0.05
    | .aggressive => 0.65 - 0.08
    | .balanced => 0.65
  if decide (strength ≤ fold_thresh) &&
      (match pot_odds with | none => true | some p => decide (strength < p)) then
    (.fold, max 0.2 (min (1 - strength) 0.95))
  else if strength ≥ raise_thresh then
    (.raise, max 0.4 (min strength 0.95))
  else
    (.call, max 0.3 (min (0.5 + (strength - fold_thresh) / (raise_thresh - fold_thresh + 1 / 1000000) * 0.3) 0.9))

/-- Python truthiness-based `a or b` on an optional integer: `None` and
`0` fall through to the default. -/
def pyOr (a : Option Int) (b : Int) : Int :=
  match a with
  | some m => if m ≠ 0 then m else b
  | none => b

/-- Python `int()` truncation toward zero on an exact rational. -/
def pyTrunc (q : ℚ) : Int :=
  if 0 ≤ q then ⌊q⌋ else ⌈q⌉

/-- Python `round()`: round half to even. -/
def pyRound (q : ℚ) : Int :=
  let f := ⌊q⌋
  let r := q - (f : ℚ)
  if r < 1 / 2 then f
  else if 1 / 2 < r then f + 1
  else if f % 2 = 0 then f else f + 1

/-- `DecisionEngine._suggest_bet`. -/
def suggest_bet (state : PokerGameState) (context : DecisionContext) : Int :=
  let min_raise := pyOr context.min_raise (max (pyTrunc ((state.pot_size : ℚ) * 0.5)) 1)
  let pot_goal := pyTrunc ((state.pot_size : ℚ) * 0.75)
  max min_raise pot_goal

/-- `DecisionEngine._maybe_estimate_equity`: `except ValueError` catches
every `Err` kind except `typeError` (Python `TypeError` is not caught). -/
def maybe_estimate_equity (state : PokerGameState) (context : DecisionContext)
    (rng : Nat → List Card) : Except Err (Option EquityEstimate) :=
  match estimate_equity state (max 1 context.num_opponents)
      (max 200 context.equity_samples) rng with
  | .ok e => .ok (some e)
  | .error e => if e = .typeError then .error e else .ok none

/-- `DecisionEngine.recommend_action` (rationale strings omitted). -/
def recommend_action (state : PokerGameState) (context : DecisionContext)
    (rng : Nat → List Card) : Except Err DecisionResult := do
  let _street ← Street.from_community state.community
  let equity_info ← maybe_estimate_equity state context rng
  let strength :=
    match equity_info with
    | some e => e.equity
    | none => estimate_strength state.player_hand state.community
  let pot_odds := compute_pot_odds state.pot_size context.pot_to_call
  let ac := apply_policy strength pot_odds context.strategy_profile
  let bet := if ac.1 = .raise then some (suggest_bet state context) else none
  pure ⟨ac.1, ac.2, bet, context.strategy_profile,
        match equity_info with | some _ => some strength | none => none⟩

/-! ### Order theory for the dataclass comparison on `HandScore` -/

/-- Non-strict comparison derived from the dataclass order. -/
def scoreLe (a b : HandScore) : Prop := a = b ∨ scoreLtB a b = true

lemma listLtB_irrefl (l : List Nat) : listLtB l l = false := by
  induction l with
  | nil => rfl
  | cons a as ih => simp [listLtB, ih]

lemma listLtB_trans {a : List Nat} : ∀ {b c : List Nat},
    listLtB a b = true → listLtB b c = true → listLtB a c = true := by
  induction a with
  | nil =>
    intro b c h1 h2
    cases b <;> cases c <;> simp_all [listLtB]
  | cons x xs ih =>
    intro b c h1 h2
    cases b with
    | nil => simp [listLtB] at h1
    | cons y ys =>
      cases c with
      | nil => simp [listLtB] at h2
      | cons z zs =>
        simp only [listLtB] at h1 h2 ⊢
        split_ifs at h1 h2 ⊢ with hxy hyx hyz hzy hxz hzx
        all_goals first
          | rfl
          | omega
          | (exact ih h1 h2)

lemma listLtB_trichotomy : ∀ (a b : List Nat),
    listLtB a b = true ∨ a = b ∨ listLtB b a = true := by
  intro a
  induction a with
  | nil => intro b; cases b <;> simp [listLtB]
  | cons x xs ih =>
    intro b
    cases b with
    | nil => simp [listLtB]
    | cons y ys =>
      rcases Nat.lt_trichotomy x y with hxy | hxy | hxy
      · left; simp [listLtB, hxy]
      · subst hxy
        rcases ih ys with h | h | h
        · left; simp [listLtB, h]
        · right; left; rw [h]
        · right; right; simp [listLtB, h]
      · right; right; simp [listLtB, hxy]

lemma scoreLtB_irrefl (s : HandScore) : scoreLtB s s = false := by
  simp [scoreLtB, listLtB_irrefl]

lemma scoreLtB_trans {a b c : HandScore} (h1 : scoreLtB a b = true)
    (h2 : scoreLtB b c = true) : scoreLtB a c = true := by
  simp only [scoreLtB] at h1 h2 ⊢
  split_ifs at h1 h2 ⊢ <;>
    first
      | rfl
      | omega
      | (exact listLtB_trans h1 h2)

lemma scoreLtB_trichotomy (a b : HandScore) :
    scoreLtB a b = true ∨ a = b ∨ scoreLtB b a = true := by
  rcases Nat.lt_trichotomy a.category b.category with h | h | h
  · left; simp [scoreLtB, h]
  · rcases listLtB_trichotomy a.ranks b.ranks with h2 | h2 | h2
    · left; simp [scoreLtB, h, h2]
    · right; left
      cases a; cases b; simp_all
    · right; right; simp [scoreLtB, h.symm, h2]
  · right; right; simp [scoreLtB, h]

/-- From two failed strict comparisons in a chain, a third fails:
if neither `m < b` nor `b < s`, then not `m < s`. -/
lemma scoreLtB_not_not {m b s : HandScore} (h1 : scoreLtB m b = false)
    (h2 : scoreLtB b s = false) : scoreLtB m s = false := by
  by_contra h
  rw [Bool.not_eq_false] at h
  rcases scoreLtB_trichotomy b s with h3 | h3 | h3
  · rw [h3] at h2; exact Bool.noConfusion h2
  · subst h3; rw [h] at h1; exact Bool.noConfusion h1
  · have := scoreLtB_trans h h3
    rw [this] at h1; exact Bool.noConfusion h1

lemma scoreLe_of_not_lt {a b : HandScore} (h : scoreLtB a b = false) :
    scoreLe b a := by
  rcases scoreLtB_trichotomy a b with h2 | h2 | h2
  · rw [h2] at h; exact Bool.noConfusion h
  · exact Or.inl h2.symm
  · exact Or.inr h2

/-- The running-maximum fold, seeded with a first score. -/
lemma foldl_maxStep_some (l : List HandScore) :
    ∀ b : HandScore, ∃ m, l.foldl maxStep (some b) = some m ∧
      (m = b ∨ m ∈ l) ∧ scoreLtB m b = false ∧
      ∀ t ∈ l, scoreLtB m t = false := by
  induction l with
  | nil =>
    intro b
    exact ⟨b, rfl, Or.inl rfl, scoreLtB_irrefl b, by simp⟩
  | cons s rest ih =>
    intro b
    by_cases hbs : scoreLtB b s = true
    · obtain ⟨m, hm, hmem, hmb, hall⟩ := ih s
      refine ⟨m, ?_, ?_, ?_, ?_⟩
      · simpa [maxStep, hbs] using hm
      · rcases hmem with h | h
        · exact Or.inr (by simp [h])
        · exact Or.inr (by simp [h])
      · by_contra hc
        rw [Bool.not_eq_false] at hc
        have := scoreLtB_trans hc hbs
        rw [this] at hmb; exact Bool.noConfusion hmb
      · intro t ht
        rcases List.mem_cons.mp ht with h | h
        · subst h; exact hmb
        · exact hall t h
    · rw [Bool.not_eq_true] at hbs
      obtain ⟨m, hm, hmem, hmb, hall⟩ := ih b
      refine ⟨m, ?_, ?_, hmb, ?_⟩
      · simpa [maxStep, hbs] using hm
      · rcases hmem with h | h
        · exact Or.inl h
        · exact Or.inr (by simp [h])
      · intro t ht
        rcases List.mem_cons.mp ht with h | h
        · subst h; exact scoreLtB_not_not hmb hbs
        · exact hall t h

/-- The running-maximum fold from an empty accumulator on a non-empty
list yields a member that no element beats. -/
lemma foldl_maxStep_none {l : List HandScore} (h : l ≠ []) :
    ∃ m, l.foldl maxStep none = some m ∧ m ∈ l ∧
      ∀ t ∈ l, scoreLtB m t = false := by
  cases l with
  | nil => exact absurd rfl h
  | cons s rest =>
    obtain ⟨m, hm, hmem, hms, hall⟩ := foldl_maxStep_some rest s
    refine ⟨m, ?_, ?_, ?_⟩
    · simpa [maxStep] using hm
    · rcases hmem with h2 | h2
      · simp [h2]
      · simp [h2]
    · intro t ht
      rcases List.mem_cons.mp ht with h2 | h2
      · subst h2; exact hms
      · exact hall t h2

/-- Sorting descending depends only on the multiset of elements. -/
lemma sortDesc_perm_eq {l l' : List ℕ} (h : l.Perm l') :
    sortDesc l = sortDesc l' :=
  List.eq_of_perm_of_sorted
    ((List.perm_insertionSort _ l).trans (h.trans (List.perm_insertionSort _ l').symm))
    (List.sorted_insertionSort _ l) (List.sorted_insertionSort _ l')

/-- With at least 5 cards, `evaluate_best_hand` succeeds and returns a
score of one of the 5-card subsets that no subset's score exceeds. -/
lemma evaluate_spec {cards : List Card} (h5 : 5 ≤ cards.length) :
    ∃ s, evaluate_best_hand cards = .ok s ∧
      s ∈ (List.sublistsLen 5 cards).map score_five_cards ∧
      ∀ t ∈ (List.sublistsLen 5 cards).map score_five_cards, scoreLe t s := by
  have hpos : 0 < ((List.sublistsLen 5 cards).map score_five_cards).length := by
    rw [List.length_map, List.length_sublistsLen]
    exact Nat.choose_pos h5
  obtain ⟨m, hm, hmem, hall⟩ := foldl_maxStep_none (List.ne_nil_of_length_pos hpos)
  refine ⟨m, ?_, hmem, fun t ht => scoreLe_of_not_lt (hall t ht)⟩
  rw [List.foldl_map] at hm
  have hlt : ¬ cards.length < 5 := by omega
  unfold evaluate_best_hand
  rw [if_neg hlt, hm]

/-- `evaluate_best_hand` can only fail for lack of cards. -/
lemma evaluate_error_kind {cards : List Card} {k : Err}
    (h : evaluate_best_hand cards = .error k) : k = .insufficientCards := by
  by_cases h5 : cards.length < 5
  · unfold evaluate_best_hand at h
    rw [if_pos h5] at h
    exact (Except.error.inj h).symm
  · obtain ⟨s, hs, -, -⟩ := @evaluate_spec cards (by omega)
    rw [hs] at h
    exact Except.noConfusion h

/-- C1: with fewer than 5 cards `evaluate_best_hand` fails with the
insufficient-cards error; with 5 to 7 distinct cards it succeeds and
returns the maximum of `score_five_cards` over all C(n,5) five-card
subsets: the result is the score of one of the subsets and every subset's
score is less than or equal to it in the dataclass order. -/
theorem claim_C1_evaluate_best_hand (cards : List Card) :
    (cards.length < 5 → evaluate_best_hand cards = .error .insufficientCards) ∧
    (5 ≤ cards.length → cards.length ≤ 7 → cards.Nodup →
      ∃ s, evaluate_best_hand cards = .ok s ∧
        s ∈ (List.sublistsLen 5 cards).map score_five_cards ∧
        ∀ t ∈ (List.sublistsLen 5 cards).map score_five_cards, scoreLe t s) := by
  constructor
  · intro h
    unfold evaluate_best_hand
    rw [if_pos h]
  · intro h5 _ _
    exact evaluate_spec h5

/-- Concrete 4-card input for the failure half of C1. -/
def c1short : List Card :=
  [⟨.r2, .hearts⟩, ⟨.r3, .hearts⟩, ⟨.r4, .hearts⟩, ⟨.r5, .hearts⟩]

/-- Concrete 7 distinct cards for the success half of C1. -/
def c1seven : List Card :=
  [⟨.r2, .hearts⟩, ⟨.r3, .hearts⟩, ⟨.r4, .hearts⟩, ⟨.r5, .hearts⟩,
   ⟨.r9, .spades⟩, ⟨.rK, .clubs⟩, ⟨.rK, .diamonds⟩]

/-- Witness for C1 at concrete inputs. -/
theorem claim_C1_witness :
    evaluate_best_hand c1short = .error .insufficientCards ∧
    ∃ s, evaluate_best_hand c1seven = .ok s ∧
      s ∈ (List.sublistsLen 5 c1seven).map score_five_cards ∧
      ∀ t ∈ (List.sublistsLen 5 c1seven).map score_five_cards, scoreLe t s :=
  ⟨(claim_C1_evaluate_best_hand c1short).1 (by decide),
   (claim_C1_evaluate_best_hand c1seven).2 (by decide) (by decide) (by decide)⟩

/-- C2: any 5 cards whose ranks are A, 2, 3, 4, 5 and whose suits are not
all equal score as a straight (category 4) with tie-break tuple `(5,)`:
the ace counts low for the wheel. -/
theorem claim_C2_wheel_straight (cards : List Card)
    (hranks : (cards.map fun c => RANK_ORDER c.rank).Perm [14, 5, 4, 3, 2])
    (hmix : ∃ c1 ∈ cards, ∃ c2 ∈ cards, c1.suit ≠ c2.suit) :
    score_five_cards cards = ⟨4, [5]⟩ := by
  have hsort : sortDesc (cards.map fun c => RANK_ORDER c.rank) = [14, 5, 4, 3, 2] := by
    rw [sortDesc_perm_eq hranks]
    decide
  obtain ⟨c1, hc1, c2, hc2, hne⟩ := hmix
  have hlen : ¬ (cards.map fun c => c.suit).dedup.length = 1 := by
    intro hl
    obtain ⟨x, hx⟩ := List.length_eq_one.mp hl
    have h1 : c1.suit ∈ (cards.map fun c => c.suit).dedup :=
      List.mem_dedup.mpr (List.mem_map_of_mem _ hc1)
    have h2 : c2.suit ∈ (cards.map fun c => c.suit).dedup :=
      List.mem_dedup.mpr (List.mem_map_of_mem _ hc2)
    rw [hx] at h1 h2
    simp only [List.mem_singleton] at h1 h2
    exact hne (h1.trans h2.symm)
  unfold score_five_cards
  rw [hsort, decide_eq_false hlen]
  decide

/-- Concrete wheel for the C2 witness: A♥ 2♠ 3♥ 4♥ 5♥. -/
def c2wheel : List Card :=
  [⟨.rA, .hearts⟩, ⟨.r2, .spades⟩, ⟨.r3, .hearts⟩, ⟨.r4, .hearts⟩, ⟨.r5, .hearts⟩]

/-- Witness for C2 at a concrete mixed-suit wheel. -/
theorem claim_C2_witness : score_five_cards c2wheel = ⟨4, [5]⟩ :=
  claim_C2_wheel_straight c2wheel (by decide) (by decide)

/-- `does_contain_duplicate` agrees with the negation of `Nodup`. -/
lemma does_contain_duplicate_iff (l : List Card) :
    does_contain_duplicate l = true ↔ ¬ l.Nodup := by
  unfold does_contain_duplicate
  rw [bne_iff_ne]
  constructor
  · intro h hn
    exact h (by rw [List.dedup_eq_self.mpr hn])
  · intro h hl
    exact h (List.dedup_eq_self.mp ((List.dedup_sublist l).eq_of_length hl))

/-- C8: constructing a `Hand` with a card count other than 2, a
`Community` with more than 5 cards, or a `PokerGameState` with negative
chips or pot or any duplicate card across hand and community all fail with
the documented error kind; a successful construction carries exactly the
validated data, so no partially constructed value ever escapes. -/
theorem claim_C8_constructor_validation :
    (∀ cs : List Card, cs.length ≠ 2 → mkHand cs = .error .wrongCardCount) ∧
    (∀ cs : List Card, cs.length = 2 → ¬ cs.Nodup →
      mkHand cs = .error .duplicateCards) ∧
    (∀ cs : List Card, ∀ h, mkHand cs = .ok h →
      h.cards = cs ∧ cs.length = 2 ∧ cs.Nodup) ∧
    (∀ cs : List Card, cs.length > 5 → mkCommunity cs = .error .wrongCardCount) ∧
    (∀ cs : List Card, cs.length ≤ 5 → ¬ cs.Nodup →
      mkCommunity cs = .error .duplicateCards) ∧
    (∀ cs : List Card, ∀ c, mkCommunity cs = .ok c →
      c.cards = cs ∧ cs.length ≤ 5 ∧ cs.Nodup) ∧
    (∀ h c (chips pot : Int), chips < 0 →
      mkPokerGameState h c chips pot = .error .negativeQuantity) ∧
    (∀ h c (chips pot : Int), 0 ≤ chips → pot < 0 →
      mkPokerGameState h c chips pot = .error .negativeQuantity) ∧
    (∀ h c (chips pot : Int), 0 ≤ chips → 0 ≤ pot →
      ¬ (h.cards ++ c.cards).Nodup →
      mkPokerGameState h c chips pot = .error .duplicateCards) ∧
    (∀ h c (chips pot : Int) st, mkPokerGameState h c chips pot = .ok st →
      st = ⟨h, c, chips, pot⟩ ∧ 0 ≤ chips ∧ 0 ≤ pot ∧
        (h.cards ++ c.cards).Nodup) := by
  refine ⟨?_, ?_, ?_, ?_, ?_, ?_, ?_, ?_, ?_, ?_⟩
  · intro cs hlen
    unfold mkHand
    rw [if_pos hlen]
  · intro cs hlen hdup
    unfold mkHand
    rw [if_neg (by omega), if_pos ((does_contain_duplicate_iff cs).mpr hdup)]
  · intro cs h hok
    unfold mkHand at hok
    split_ifs at hok with h1 h2
    · exact ⟨(Except.ok.inj hok).symm ▸ rfl, by omega, by
        by_contra hn
        rw [(does_contain_duplicate_iff cs).mpr hn] at h2
        exact h2 rfl⟩
  · intro cs hlen
    unfold mkCommunity
    rw [if_pos hlen]
  · intro cs hlen hdup
    unfold mkCommunity
    rw [if_neg (by omega), if_pos ((does_contain_duplicate_iff cs).mpr hdup)]
  · intro cs c hok
    unfold mkCommunity at hok
    split_ifs at hok with h1 h2
    · exact ⟨(Except.ok.inj hok).symm ▸ rfl, by omega, by
        by_contra hn
        rw [(does_contain_duplicate_iff cs).mpr hn] at h2
        exact h2 rfl⟩
  · intro h c chips pot hneg
    unfold mkPokerGameState
    rw [if_pos hneg]
  · intro h c chips pot hchips hneg
    unfold mkPokerGameState
    rw [if_neg (by omega), if_pos hneg]
  · intro h c chips pot hchips hpot hdup
    unfold mkPokerGameState
    rw [if_neg (by omega), if_neg (by omega),
      if_pos ((does_contain_duplicate_iff _).mpr hdup)]
  · intro h c chips pot st hok
    unfold mkPokerGameState at hok
    split_ifs at hok with h1 h2 h3
    · refine ⟨(Except.ok.inj hok).symm, by omega, by omega, ?_⟩
      by_contra hn
      rw [(does_contain_duplicate_iff _).mpr hn] at h3
      exact h3 rfl

/-- Witness for C8: a 3-card hand, a 6-card community, a negative pot,
duplicated hand/board cards, and a fully valid construction. -/
theorem claim_C8_witness :
    mkHand [⟨.r2, .hearts⟩, ⟨.r3, .hearts⟩, ⟨.r4, .hearts⟩] =
      .error .wrongCardCount ∧
    mkCommunity [⟨.r2, .hearts⟩, ⟨.r3, .hearts⟩, ⟨.r4, .hearts⟩,
      ⟨.r5, .hearts⟩, ⟨.r6, .hearts⟩, ⟨.r7, .hearts⟩] =
      .error .wrongCardCount ∧
    mkPokerGameState ⟨[⟨.r2, .hearts⟩, ⟨.r3, .hearts⟩]⟩ ⟨[]⟩ 0 (-1) =
      .error .negativeQuantity ∧
    mkPokerGameState ⟨[⟨.r2, .hearts⟩, ⟨.r3, .hearts⟩]⟩ ⟨[⟨.r2, .hearts⟩]⟩ 0 0 =
      .error .duplicateCards :=
  ⟨claim_C8_constructor_validation.1 _ (by decide),
   claim_C8_constructor_validation.2.2.2.1 _ (by decide),
   claim_C8_constructor_validation.2.2.2.2.2.2.2.1 _ _ 0 (-1) (by decide) (by decide),
   claim_C8_constructor_validation.2.2.2.2.2.2.2.2.1 _ _ 0 0 (by decide) (by decide)
     (by decide)⟩

/-- The fold thresholds exactly as the claim words them (base 0.38,
tight +0.05, aggressive -0.05). -/
def claimFoldThresh : StrategyProfile → ℚ
  | .tight => 0.43
  | .balanced => 0.38
  | .aggressive => 0.33

/-- The raise thresholds exactly as the claim words them (base 0.65,
tight +0.05, aggressive -0.08). -/
def claimRaiseThresh : StrategyProfile → ℚ
  | .tight => 0.70
  | .balanced => 0.65
  | .aggressive => 0.57

/-- The claim's fold condition: strength at most the fold threshold and
(pot odds absent or strength strictly below pot odds). -/
def foldCondition (strength : ℚ) (pot_odds : Option ℚ)
    (strategy : StrategyProfile) : Prop :=
  strength ≤ claimFoldThresh strategy ∧
    (pot_odds = none ∨ ∃ p, pot_odds = some p ∧ strength < p)

/-- Branch characterization of the `_apply_policy` conditional, stated
over abstract thresholds. -/
lemma policy_shape (strength : ℚ) (pot_odds : Option ℚ) (ft rt ftc rtc : ℚ)
    (hfe : ft = ftc) (hre : rt = rtc) (x y z : ℚ) :
    (((if (decide (strength ≤ ft) &&
          match pot_odds with | none => true | some p => decide (strength < p)) = true
        then ((ActionType.fold, x) : ActionType × ℚ)
        else if strength ≥ rt then (ActionType.raise, y)
        else (ActionType.call, z)).1 = ActionType.fold) ↔
      (strength ≤ ftc ∧ (pot_odds = none ∨ ∃ p, pot_odds = some p ∧ strength < p))) ∧
    (((if (decide (strength ≤ ft) &&
          match pot_odds with | none => true | some p => decide (strength < p)) = true
        then ((ActionType.fold, x) : ActionType × ℚ)
        else if strength ≥ rt then (ActionType.raise, y)
        else (ActionType.call, z)).1 = ActionType.raise) ↔
      (¬ (strength ≤ ftc ∧ (pot_odds = none ∨ ∃ p, pot_odds = some p ∧ strength < p)) ∧
        rtc ≤ strength)) ∧
    (((if (decide (strength ≤ ft) &&
          match pot_odds with | none => true | some p => decide (strength < p)) = true
        then ((ActionType.fold, x) : ActionType × ℚ)
        else if strength ≥ rt then (ActionType.raise, y)
        else (ActionType.call, z)).1 = ActionType.call) ↔
      (¬ (strength ≤ ftc ∧ (pot_odds = none ∨ ∃ p, pot_odds = some p ∧ strength < p)) ∧
        strength < rtc)) := by
  subst hfe hre
  cases pot_odds with
  | none =>
    by_cases hf : strength ≤ ft
    · simp [hf]
    · by_cases hr : rt ≤ strength
      · simp [hf, hr, ge_iff_le, not_le]
      · simp [hf, hr, ge_iff_le, not_le, not_le.mp hr]
  | some p =>
    by_cases hf : strength ≤ ft
    · by_cases hp : strength < p
      · simp [hf, hp]
      · by_cases hr : rt ≤ strength
        · simp [hf, hp, hr, ge_iff_le, not_le]
        · simp [hf, hp, hr, ge_iff_le, not_le, not_le.mp hr]
    · by_cases hr : rt ≤ strength
      · simp [hf, hr, ge_iff_le, not_le]
      · simp [hf, hr, ge_iff_le, not_le, not_le.mp hr]

/-- C5: the decision policy folds exactly when strength is at most the
profile-shifted fold threshold (0.43 tight / 0.38 balanced / 0.33
aggressive) and pot odds are absent or exceed strength; otherwise it
raises exactly when strength reaches the profile-shifted raise threshold
(0.70 tight / 0.65 balanced / 0.57 aggressive); otherwise it calls. -/
theorem claim_C5_apply_policy (strength : ℚ) (pot_odds : Option ℚ)
    (strategy : StrategyProfile) :
    ((apply_policy strength pot_odds strategy).1 = .fold ↔
      foldCondition strength pot_odds strategy) ∧
    ((apply_policy strength pot_odds strategy).1 = .raise ↔
      ¬ foldCondition strength pot_odds strategy ∧
        claimRaiseThresh strategy ≤ strength) ∧
    ((apply_policy strength pot_odds strategy).1 = .call ↔
      ¬ foldCondition strength pot_odds strategy ∧
        strength < claimRaiseThresh strategy) := by
  cases strategy with
  | tight =>
    exact policy_shape strength pot_odds (0.38 + 0.05) (0.65 + 0.05) 0.43 0.70
      (by norm_num) (by norm_num) _ _ _
  | balanced =>
    exact policy_shape strength pot_odds 0.38 0.65 0.38 0.65 rfl rfl _ _ _
  | aggressive =>
    exact policy_shape strength pot_odds (0.38 - 0.05) (0.65 - 0.08) 0.33 0.57
      (by norm_num) (by norm_num) _ _ _

/-! ### Loop lemmas for the equity simulator -/

lemma ok_bind {α β : Type} (a : α) (g : α → Except Err β) :
    (Except.ok a >>= g) = g a := rfl

lemma error_bind {α β : Type} (k : Err) (g : α → Except Err β) :
    ((Except.error k : Except Err α) >>= g) = .error k := rfl

/-- The scenario predicate counted into `wins`. -/
def isWinOf (f : List Card → Except Err Outcome) (s : List Card) : Bool :=
  match f s with | .ok .win => true | _ => false

/-- The scenario predicate counted into `ties`. -/
def isTieOf (f : List Card → Except Err Outcome) (s : List Card) : Bool :=
  match f s with | .ok .tie => true | _ => false

lemma exceptMap_ok (f : Nat → Except Err HandScore) (l : List Nat)
    (h : ∀ i ∈ l, ∃ b, f i = .ok b) :
    ∃ bs, exceptMap f l = .ok bs ∧ bs.length = l.length := by
  induction l with
  | nil => exact ⟨[], rfl, rfl⟩
  | cons i is ih =>
    obtain ⟨b, hb⟩ := h i (List.mem_cons_self i is)
    obtain ⟨bs, hbs, hlen⟩ := ih fun j hj => h j (List.mem_cons_of_mem i hj)
    refine ⟨b :: bs, ?_, by simp [hlen]⟩
    rw [exceptMap, hb, ok_bind, hbs, ok_bind]
    rfl

lemma exceptMap_error (f : Nat → Except Err HandScore) (l : List Nat) (k : Err)
    (h : exceptMap f l = .error k) : ∃ i ∈ l, f i = .error k := by
  induction l with
  | nil => exact absurd h (by simp [exceptMap])
  | cons i is ih =>
    match hfi : f i with
    | .error k2 =>
      rw [exceptMap, hfi, error_bind] at h
      exact ⟨i, List.mem_cons_self i is, by rw [hfi, Except.error.inj h]⟩
    | .ok b =>
      rw [exceptMap, hfi, ok_bind] at h
      match hrest : exceptMap f is with
      | .error k3 =>
        rw [hrest, error_bind] at h
        obtain ⟨j, hj, hfj⟩ := ih (by rw [hrest, Except.error.inj h])
        exact ⟨j, List.mem_cons_of_mem i hj, hfj⟩
      | .ok bs =>
        rw [hrest, ok_bind] at h
        exact Except.noConfusion h

lemma countFold_spec (f : List Card → Except Err Outcome)
    (l : List (List Card)) (h : ∀ s ∈ l, ∃ o, f s = .ok o) :
    ∀ w t : Nat, countFold f l (w, t) =
      .ok (w + l.countP (isWinOf f), t + l.countP (isTieOf f)) := by
  induction l with
  | nil => intro w t; simp [countFold]
  | cons s rest ih =>
    intro w t
    obtain ⟨o, ho⟩ := h s (List.mem_cons_self s rest)
    have ihr := ih fun x hx => h x (List.mem_cons_of_mem s hx)
    cases o with
    | win =>
      rw [countFold, ho, ok_bind]
      show countFold f rest (w + 1, t) = _
      rw [ihr (w + 1) t]
      simp [List.countP_cons, isWinOf, isTieOf, ho]
      omega
    | tie =>
      rw [countFold, ho, ok_bind]
      show countFold f rest (w, t + 1) = _
      rw [ihr w (t + 1)]
      simp [List.countP_cons, isWinOf, isTieOf, ho]
      omega
    | loss =>
      rw [countFold, ho, ok_bind]
      show countFold f rest (w, t) = _
      rw [ihr w t]
      simp [List.countP_cons, isWinOf, isTieOf, ho]

lemma countFold_error (f : List Card → Except Err Outcome)
    (l : List (List Card)) (k : Err) :
    ∀ wt, countFold f l wt = .error k → ∃ s ∈ l, f s = .error k := by
  induction l with
  | nil => intro wt h; exact absurd h (by simp [countFold])
  | cons s rest ih =>
    intro wt h
    match hfs : f s with
    | .error k2 =>
      rw [countFold, hfs, error_bind] at h
      exact ⟨s, List.mem_cons_self s rest, by rw [hfs, Except.error.inj h]⟩
    | .ok o =>
      rw [countFold, hfs, ok_bind] at h
      obtain ⟨x, hx, hfx⟩ := ih _ h
      exact ⟨x, List.mem_cons_of_mem s hx, hfx⟩

lemma countP_add_countP_le_length (p q : List Card → Bool)
    (l : List (List Card)) (h : ∀ a ∈ l, ¬(p a = true ∧ q a = true)) :
    l.countP p + l.countP q ≤ l.length := by
  induction l with
  | nil => simp
  | cons a rest ih =>
    have hr := ih fun x hx => h x (List.mem_cons_of_mem a hx)
    have ha := h a (List.mem_cons_self a rest)
    simp only [List.countP_cons, List.length_cons]
    by_cases hp : p a = true
    · by_cases hq : q a = true
      · exact absurd ⟨hp, hq⟩ ha
      · simp only [hp, Bool.not_eq_true] at *
        simp [hq]
        omega
    · by_cases hq : q a = true
      · simp only [Bool.not_eq_true] at hp
        simp [hp, hq]
        omega
      · simp only [Bool.not_eq_true] at hp hq
        simp [hp, hq]
        omega

/-- `pure` on `Except` is `ok`. -/
lemma pure_eq_ok {α : Type} (a : α) : (pure a : Except Err α) = .ok a := rfl

/-- Per-scenario specification: with well-formed lengths the scenario
succeeds, the best villain is the maximum of the villain scores, and the
outcome is win exactly when the hero score strictly exceeds it and tie
exactly when they are equal. -/
lemma sampleOutcome_spec (hero board sample : List Card) (missing opponents : Nat)
    (hhero : hero.length = 2) (hboard : board.length + missing = 5)
    (hsample : sample.length = opponents * 2 + missing) (hopp : 1 ≤ opponents) :
    ∃ h vs bv,
      evaluate_best_hand (hero ++ (board ++ sample.take missing)) = .ok h ∧
      villainScores (board ++ sample.take missing) sample missing opponents = .ok vs ∧
      vs.length = opponents ∧ bv ∈ vs ∧ (∀ v ∈ vs, scoreLe v bv) ∧
      sampleOutcome hero board missing opponents sample =
        .ok (if scoreLtB bv h then .win else if h = bv then .tie else .loss) ∧
      (sampleOutcome hero board missing opponents sample = .ok .win ↔
        scoreLtB bv h = true) ∧
      (sampleOutcome hero board missing opponents sample = .ok .tie ↔ h = bv) := by
  have htake : (sample.take missing).length = missing := by
    rw [List.length_take]
    omega
  have hb5 : (board ++ sample.take missing).length = 5 := by
    rw [List.length_append, htake]
    omega
  obtain ⟨h, hh, -, -⟩ := @evaluate_spec (hero ++ (board ++ sample.take missing))
    (by rw [List.length_append, hb5]; omega)
  have hvill : ∀ i ∈ List.range opponents, ∃ b,
      evaluate_best_hand ((sample.drop (missing + 2 * i)).take 2 ++
        (board ++ sample.take missing)) = .ok b := by
    intro i hi
    rw [List.mem_range] at hi
    have hslice : ((sample.drop (missing + 2 * i)).take 2).length = 2 := by
      rw [List.length_take, List.length_drop]
      omega
    obtain ⟨b, hb, -, -⟩ := @evaluate_spec
      ((sample.drop (missing + 2 * i)).take 2 ++ (board ++ sample.take missing))
      (by rw [List.length_append, hslice, hb5]; omega)
    exact ⟨b, hb⟩
  obtain ⟨vs, hvs, hvslen⟩ := exceptMap_ok _ _ hvill
  rw [List.length_range] at hvslen
  have hvsne : vs ≠ [] := by
    intro hc
    rw [hc] at hvslen
    simp at hvslen
    omega
  obtain ⟨bv, hbv, hbvmem, hball⟩ := foldl_maxStep_none hvsne
  have hso : sampleOutcome hero board missing opponents sample =
      .ok (if scoreLtB bv h then .win else if h = bv then .tie else .loss) := by
    simp only [sampleOutcome, villainScores]
    rw [hh, ok_bind, hvs, ok_bind, hbv]
    rfl
  refine ⟨h, vs, bv, hh, hvs, hvslen, hbvmem,
    fun v hv => scoreLe_of_not_lt (hball v hv), hso, ?_, ?_⟩
  · rw [hso]
    by_cases hw : scoreLtB bv h = true
    · simp [hw]
    · rw [Bool.not_eq_true] at hw
      by_cases he : h = bv <;> simp [hw, he, scoreLtB_irrefl]
  · rw [hso]
    by_cases hw : scoreLtB bv h = true
    · simp [hw]
      intro he
      rw [he, scoreLtB_irrefl] at hw
      exact Bool.noConfusion hw
    · rw [Bool.not_eq_true] at hw
      by_cases he : h = bv <;> simp [hw, he, scoreLtB_irrefl]

/-! ### Named forms of the local bindings of `estimate_equity` -/

/-- The `remaining` binding of `estimate_equity`. -/
def eqRemaining (state : PokerGameState) : List Card :=
  get_remaining_cards (state.player_hand.cards ++ state.community.cards)

/-- The `missing_board` binding. -/
def eqMissing (state : PokerGameState) : Nat := 5 - state.community.cards.length

/-- The `cards_needed` binding. -/
def eqNeeded (state : PokerGameState) (opponents : Nat) : Nat :=
  opponents * 2 + eqMissing state

/-- The per-scenario outcome function of the loop. -/
def eqOutcome (state : PokerGameState) (opponents : Nat) :
    List Card → Except Err Outcome :=
  sampleOutcome state.player_hand.cards state.community.cards
    (eqMissing state) opponents

/-- The `samples` binding. -/
def eqSamples (state : PokerGameState) (opponents trials : Nat)
    (rng : Nat → List Card) : List (List Card) :=
  equitySamples (eqRemaining state) (eqNeeded state opponents) trials rng

/-- The `actual_trials` binding. -/
def eqTrials (state : PokerGameState) (opponents trials : Nat) : Nat :=
  if Nat.choose (eqRemaining state).length (eqNeeded state opponents) ≤ trials
  then Nat.choose (eqRemaining state).length (eqNeeded state opponents)
  else trials

/-- The scenario list always has exactly `actual_trials` entries. -/
lemma eqSamples_length (state : PokerGameState) (opponents trials : Nat)
    (rng : Nat → List Card) :
    (eqSamples state opponents trials rng).length =
      eqTrials state opponents trials := by
  unfold eqSamples equitySamples eqTrials
  split_ifs with h
  · rw [List.length_sublistsLen]
  · rw [List.length_map, List.length_range]

/-- Full characterization of a successful `estimate_equity` run: the
result tallies wins and ties over the scenario list and reports the
`actual_trials` count and the half-credit equity ratio. -/
lemma estimate_equity_spec (state : PokerGameState) (opponents trials : Nat)
    (rng : Nat → List Card)
    (hopp : 1 ≤ opponents)
    (hhand : state.player_hand.cards.length = 2)
    (hboard : state.community.cards.length ≤ 5)
    (hneed : eqNeeded state opponents ≤ (eqRemaining state).length)
    (hrng : ∀ i, i < trials → (rng i).length = eqNeeded state opponents) :
    estimate_equity state opponents trials rng = .ok
      ⟨(if eqTrials state opponents trials ≠ 0 then
          (((eqSamples state opponents trials rng).countP
              (isWinOf (eqOutcome state opponents)) : ℚ) +
            ((eqSamples state opponents trials rng).countP
              (isTieOf (eqOutcome state opponents)) : ℚ) / 2) /
            (eqTrials state opponents trials : ℚ)
        else 0),
       (eqSamples state opponents trials rng).countP
         (isWinOf (eqOutcome state opponents)),
       (eqSamples state opponents trials rng).countP
         (isTieOf (eqOutcome state opponents)),
       eqTrials state opponents trials⟩ := by
  have hsamp : ∀ s ∈ eqSamples state opponents trials rng,
      s.length = eqNeeded state opponents := by
    intro s hs
    unfold eqSamples equitySamples at hs
    split_ifs at hs with hra
    · exact (List.mem_sublistsLen.mp hs).2
    · obtain ⟨i, hi, rfl⟩ := List.mem_map.mp hs
      rw [List.mem_range] at hi
      exact hrng i hi
  have hout : ∀ s ∈ eqSamples state opponents trials rng,
      ∃ o, eqOutcome state opponents s = .ok o := by
    intro s hs
    obtain ⟨h, vs, bv, -, -, -, -, -, hok, -, -⟩ :=
      sampleOutcome_spec state.player_hand.cards state.community.cards s
        (eqMissing state) opponents hhand (by unfold eqMissing; omega)
        (by rw [hsamp s hs]; rfl) hopp
    exact ⟨_, hok⟩
  have htally := countFold_spec (eqOutcome state opponents)
    (eqSamples state opponents trials rng) hout 0 0
  simp only [Nat.zero_add] at htally
  unfold eqOutcome eqSamples eqRemaining eqNeeded eqMissing at htally
  simp only [estimate_equity]
  rw [if_neg (show ¬ opponents < 1 by omega)]
  rw [if_neg (show ¬ opponents * 2 + (5 - state.community.cards.length) >
    (get_remaining_cards (state.player_hand.cards ++ state.community.cards)).length
    from by unfold eqNeeded eqMissing eqRemaining at hneed; omega)]
  rw [htally, ok_bind]
  rfl

/-- `isWinOf` detects exactly the win outcome. -/
lemma isWinOf_true (f : List Card → Except Err Outcome) (s : List Card) :
    isWinOf f s = true ↔ f s = .ok .win := by
  cases hf : f s with
  | ok o => cases o <;> simp [isWinOf, hf]
  | error k => simp [isWinOf, hf]

/-- `isTieOf` detects exactly the tie outcome. -/
lemma isTieOf_true (f : List Card → Except Err Outcome) (s : List Card) :
    isTieOf f s = true ↔ f s = .ok .tie := by
  cases hf : f s with
  | ok o => cases o <;> simp [isTieOf, hf]
  | error k => simp [isTieOf, hf]

/-- A scenario cannot count as both a win and a tie. -/
lemma win_tie_disjoint (f : List Card → Except Err Outcome) :
    ∀ s, ¬ (isWinOf f s = true ∧ isTieOf f s = true) := by
  intro s ⟨hw, ht⟩
  rw [isWinOf_true] at hw
  rw [isTieOf_true] at ht
  rw [hw] at ht
  exact Outcome.noConfusion (Except.ok.inj ht)

/-- Wins plus ties never exceed the number of scenarios. -/
lemma wins_add_ties_le (f : List Card → Except Err Outcome)
    (l : List (List Card)) :
    l.countP (isWinOf f) + l.countP (isTieOf f) ≤ l.length :=
  countP_add_countP_le_length _ _ l fun s _ => win_tie_disjoint f s

/-- C3: for a valid state with at least one opponent and enough unseen
cards, `estimate_equity` succeeds; its wins count the scenarios where the
hero score strictly exceeds the maximum opponent score, its ties those
where it equals that maximum, the reported trial count is the number of
scenarios, and the equity is `(wins + ties / 2) / actual_trials`, a value
in `[0, 1]`. -/
theorem claim_C3_estimate_equity (state : PokerGameState) (opponents trials : Nat)
    (rng : Nat → List Card)
    (hopp : 1 ≤ opponents)
    (hhand : state.player_hand.cards.length = 2)
    (hboard : state.community.cards.length ≤ 5)
    (hneed : eqNeeded state opponents ≤ (eqRemaining state).length)
    (hrng : ∀ i, i < trials → (rng i).length = eqNeeded state opponents) :
    ∃ e, estimate_equity state opponents trials rng = .ok e ∧
      e.wins = (eqSamples state opponents trials rng).countP
        (isWinOf (eqOutcome state opponents)) ∧
      e.ties = (eqSamples state opponents trials rng).countP
        (isTieOf (eqOutcome state opponents)) ∧
      e.trials = (eqSamples state opponents trials rng).length ∧
      e.equity = ((e.wins : ℚ) + (e.ties : ℚ) / 2) / (e.trials : ℚ) ∧
      0 ≤ e.equity ∧ e.equity ≤ 1 ∧
      (∀ s ∈ eqSamples state opponents trials rng, ∃ h vs bv,
        evaluate_best_hand (state.player_hand.cards ++
          (state.community.cards ++ s.take (eqMissing state))) = .ok h ∧
        villainScores (state.community.cards ++ s.take (eqMissing state)) s
          (eqMissing state) opponents = .ok vs ∧
        vs.length = opponents ∧ bv ∈ vs ∧ (∀ v ∈ vs, scoreLe v bv) ∧
        (eqOutcome state opponents s = .ok .win ↔ scoreLtB bv h = true) ∧
        (eqOutcome state opponents s = .ok .tie ↔ h = bv)) := by
  have hsamp : ∀ s ∈ eqSamples state opponents trials rng,
      s.length = eqNeeded state opponents := by
    intro s hs
    unfold eqSamples equitySamples at hs
    split_ifs at hs with hra
    · exact (List.mem_sublistsLen.mp hs).2
    · obtain ⟨i, hi, rfl⟩ := List.mem_map.mp hs
      rw [List.mem_range] at hi
      exact hrng i hi
  set W := (eqSamples state opponents trials rng).countP
    (isWinOf (eqOutcome state opponents)) with hW
  set T := (eqSamples state opponents trials rng).countP
    (isTieOf (eqOutcome state opponents)) with hT
  set N := eqTrials state opponents trials with hN
  have hNlen : (eqSamples state opponents trials rng).length = N :=
    eqSamples_length state opponents trials rng
  have hWT : W + T ≤ N := by
    rw [← hNlen]
    exact wins_add_ties_le _ _
  refine ⟨_, estimate_equity_spec state opponents trials rng hopp hhand hboard
    hneed hrng, rfl, rfl, hNlen.symm, ?_, ?_, ?_, ?_⟩
  · show (if N ≠ 0 then ((W : ℚ) + (T : ℚ) / 2) / (N : ℚ) else 0) =
      ((W : ℚ) + (T : ℚ) / 2) / (N : ℚ)
    by_cases hz : N ≠ 0
    · rw [if_pos hz]
    · rw [if_neg hz]
      push_neg at hz
      have hW0 : W = 0 := by omega
      have hT0 : T = 0 := by omega
      rw [hz, hW0, hT0]
      norm_num
  · show 0 ≤ (if N ≠ 0 then ((W : ℚ) + (T : ℚ) / 2) / (N : ℚ) else 0)
    by_cases hz : N ≠ 0
    · rw [if_pos hz]
      positivity
    · rw [if_neg hz]
  · show (if N ≠ 0 then ((W : ℚ) + (T : ℚ) / 2) / (N : ℚ) else 0) ≤ 1
    by_cases hz : N ≠ 0
    · rw [if_pos hz]
      rw [div_le_one (by positivity)]
      have h1 : (W : ℚ) + (T : ℚ) ≤ (N : ℚ) := by exact_mod_cast hWT
      have h2 : (0 : ℚ) ≤ (T : ℚ) := by positivity
      linarith
    · rw [if_neg hz]
      norm_num
  · intro s hs
    obtain ⟨h, vs, bv, hh, hvs, hlen, hmem, hle, -, hwin, htie⟩ :=
      sampleOutcome_spec state.player_hand.cards state.community.cards s
        (eqMissing state) opponents hhand (by unfold eqMissing; omega)
        (by rw [hsamp s hs]; rfl) hopp
    exact ⟨h, vs, bv, hh, hvs, hlen, hmem, hle, hwin, htie⟩

/-- C4: when `C(remaining, needed) ≤ trials` the scenario list is exactly
the full enumeration of `needed`-card combinations of the unseen cards and
the reported trial count equals that combination count; otherwise exactly
`trials` sampler draws are used and the reported count is `trials`. -/
theorem claim_C4_exact_vs_sampled (state : PokerGameState)
    (opponents trials : Nat) (rng : Nat → List Card)
    (hopp : 1 ≤ opponents)
    (hhand : state.player_hand.cards.length = 2)
    (hboard : state.community.cards.length ≤ 5)
    (hneed : eqNeeded state opponents ≤ (eqRemaining state).length)
    (hrng : ∀ i, i < trials → (rng i).length = eqNeeded state opponents) :
    ∃ e, estimate_equity state opponents trials rng = .ok e ∧
      (Nat.choose (eqRemaining state).length (eqNeeded state opponents) ≤ trials →
        eqSamples state opponents trials rng =
          List.sublistsLen (eqNeeded state opponents) (eqRemaining state) ∧
        e.trials = Nat.choose (eqRemaining state).length (eqNeeded state opponents) ∧
        e.wins = (List.sublistsLen (eqNeeded state opponents)
          (eqRemaining state)).countP (isWinOf (eqOutcome state opponents)) ∧
        e.ties = (List.sublistsLen (eqNeeded state opponents)
          (eqRemaining state)).countP (isTieOf (eqOutcome state opponents))) ∧
      (¬ Nat.choose (eqRemaining state).length (eqNeeded state opponents) ≤ trials →
        eqSamples state opponents trials rng = (List.range trials).map rng ∧
        ((List.range trials).map rng).length = trials ∧
        e.trials = trials) := by
  refine ⟨_, estimate_equity_spec state opponents trials rng hopp hhand hboard
    hneed hrng, ?_, ?_⟩
  · intro hle
    have hs : eqSamples state opponents trials rng =
        List.sublistsLen (eqNeeded state opponents) (eqRemaining state) := by
      unfold eqSamples equitySamples
      rw [if_pos hle]
    have ht : eqTrials state opponents trials =
        Nat.choose (eqRemaining state).length (eqNeeded state opponents) := by
      unfold eqTrials
      rw [if_pos hle]
    exact ⟨hs, ht, by rw [hs], by rw [hs]⟩
  · intro hgt
    have hs : eqSamples state opponents trials rng = (List.range trials).map rng := by
      unfold eqSamples equitySamples
      rw [if_neg hgt]
    have ht : eqTrials state opponents trials = trials := by
      unfold eqTrials
      rw [if_neg hgt]
    exact ⟨hs, by rw [List.length_map, List.length_range], ht⟩

/-- C10: with `trials = 0` (and otherwise valid inputs) `estimate_equity`
does not divide by zero: the guarded branch returns equity 0 with zero
wins, ties and trials. -/
theorem claim_C10_zero_trials (state : PokerGameState) (opponents : Nat)
    (rng : Nat → List Card)
    (hopp : 1 ≤ opponents)
    (hhand : state.player_hand.cards.length = 2)
    (hboard : state.community.cards.length ≤ 5)
    (hneed : eqNeeded state opponents ≤ (eqRemaining state).length) :
    estimate_equity state opponents 0 rng = .ok ⟨0, 0, 0, 0⟩ := by
  have h := estimate_equity_spec state opponents 0 rng hopp hhand hboard hneed
    (by omega)
  have hch : ¬ Nat.choose (eqRemaining state).length
      (eqNeeded state opponents) ≤ 0 := by
    have := Nat.choose_pos hneed
    omega
  have hsz : eqSamples state opponents 0 rng = [] := by
    unfold eqSamples equitySamples
    rw [if_neg hch]
    simp
  have htz : eqTrials state opponents 0 = 0 := by
    unfold eqTrials
    rw [if_neg hch]
  rw [h]
  simp [hsz, htz]

/-- Concrete valid state (A\u2665 A\u2660, empty board) for the equity witnesses. -/
def witState : PokerGameState :=
  ⟨⟨[⟨.rA, .hearts⟩, ⟨.rA, .spades⟩]⟩, ⟨[]⟩, 100, 10⟩

/-- Trivial sampler for the equity witnesses (never consulted). -/
def witRng : Nat → List Card := fun _ => []

/-- Witness for C3 at a concrete state. -/
theorem claim_C3_witness :
    ∃ e, estimate_equity witState 1 0 witRng = .ok e ∧
      0 ≤ e.equity ∧ e.equity ≤ 1 ∧
      e.equity = ((e.wins : ℚ) + (e.ties : ℚ) / 2) / (e.trials : ℚ) := by
  obtain ⟨e, hok, -, -, -, hfor, h0, h1, -⟩ :=
    claim_C3_estimate_equity witState 1 0 witRng (by decide) (by decide)
      (by decide) (by decide) (fun i hi => absurd hi (by omega))
  exact ⟨e, hok, h0, h1, hfor⟩

/-- Witness for C4 at a concrete state (sampling branch). -/
theorem claim_C4_witness :
    ∃ e, estimate_equity witState 1 0 witRng = .ok e ∧ e.trials = 0 := by
  obtain ⟨e, hok, -, hsampled⟩ :=
    claim_C4_exact_vs_sampled witState 1 0 witRng (by decide) (by decide)
      (by decide) (by decide) (fun i hi => absurd hi (by omega))
  exact ⟨e, hok, (hsampled (by decide)).2.2⟩

/-- Witness for C10 at a concrete state. -/
theorem claim_C10_witness :
    estimate_equity witState 1 0 witRng = .ok ⟨0, 0, 0, 0⟩ :=
  claim_C10_zero_trials witState 1 witRng (by decide) (by decide) (by decide)
    (by decide)

/-- The full deck has no duplicates. -/
lemma deck_nodup : get_full_deck.Nodup := by decide

/-- Removing the used cards drops at most `used.length` cards from the
52-card deck. -/
lemma deck_remaining_length (used : List Card) :
    52 ≤ (get_remaining_cards used).length + used.length := by
  have hperm := List.filter_append_perm (fun c => decide (c ∈ used)) get_full_deck
  have hlen := hperm.length_eq
  rw [List.length_append] at hlen
  have hdeck : get_full_deck.length = 52 := by decide
  have hsub : List.Subperm (get_full_deck.filter fun c => decide (c ∈ used)) used := by
    apply List.subperm_of_subset
    · exact ((List.filter_sublist _).nodup deck_nodup)
    · intro c hc
      simpa using List.of_mem_filter hc
  have h1 := hsub.length_le
  have h2 : (get_full_deck.filter fun c => !decide (c ∈ used)) =
      get_remaining_cards used := by
    unfold get_remaining_cards
    apply List.filter_congr
    intro c _
    simp [decide_not]
  rw [h2, hdeck] at hlen
  omega

/-- With a flop or later board, well-formed inputs and a positive sample
budget, the percentile estimator returns an actual value. -/
lemma percentile_spec (score : HandScore) (hand : Hand) (community : Community)
    (samples : Nat) (rng : Nat → List Card)
    (hhand : hand.cards.length = 2)
    (hboard3 : 3 ≤ community.cards.length)
    (hboard5 : community.cards.length ≤ 5)
    (hsamples : 1 ≤ samples)
    (hrng : ∀ i, i < samples → (rng i).length = 2) :
    ∃ p, estimate_percentile_against_other_hands score hand community samples rng =
      .ok (some p) := by
  have hrem : 2 ≤ (get_remaining_cards (hand.cards ++ community.cards)).length := by
    have h0 := deck_remaining_length (hand.cards ++ community.cards)
    rw [List.length_append] at h0
    omega
  have hcomb : Nat.choose
      (get_remaining_cards (hand.cards ++ community.cards)).length 2 ≠ 0 := by
    have := Nat.choose_pos hrem
    omega
  set iter := (if Nat.choose
        (get_remaining_cards (hand.cards ++ community.cards)).length 2 ≤ samples
      then List.sublistsLen 2 (get_remaining_cards (hand.cards ++ community.cards))
      else (List.range samples).map rng) with hiter
  have hmem : ∀ combo ∈ iter,
      ∃ o, percentileOutcome score community.cards combo = .ok o := by
    intro combo hc
    have hlen2 : combo.length = 2 := by
      rw [hiter] at hc
      split_ifs at hc with h
      · exact (List.mem_sublistsLen.mp hc).2
      · obtain ⟨i, hi, rfl⟩ := List.mem_map.mp hc
        rw [List.mem_range] at hi
        exact hrng i hi
    obtain ⟨b, hb, -, -⟩ := @evaluate_spec (combo ++ community.cards)
      (by rw [List.length_append, hlen2]; omega)
    exact ⟨_, by unfold percentileOutcome; rw [hb, ok_bind]; rfl⟩
  have htally := countFold_spec (percentileOutcome score community.cards)
    iter hmem 0 0
  simp only [Nat.zero_add] at htally
  have hdenom : (if Nat.choose
        (get_remaining_cards (hand.cards ++ community.cards)).length 2 ≤ samples
      then Nat.choose
        (get_remaining_cards (hand.cards ++ community.cards)).length 2
      else samples) ≠ 0 := by
    split_ifs <;> omega
  simp only [estimate_percentile_against_other_hands]
  rw [if_neg (show ¬ community.cards.length < 3 by omega)]
  rw [if_neg hcomb]
  rw [← hiter, htally, ok_bind]
  rw [if_pos hdenom]
  exact ⟨_, rfl⟩

/-- C9: `describe_made_hand` returns nothing exactly when the community
has fewer than 3 cards; with 3 or more board cards it returns a result
carrying the hand label, the score category, and a percentile value. -/
theorem claim_C9_describe_made_hand (hand : Hand) (community : Community)
    (samples : Nat) (rng : Nat → List Card)
    (hhand : hand.cards.length = 2)
    (hboard5 : community.cards.length ≤ 5)
    (hsamples : 1 ≤ samples)
    (hrng : ∀ i, i < samples → (rng i).length = 2) :
    (describe_made_hand hand community samples rng = .ok none ↔
      community.cards.length < 3) ∧
    (3 ≤ community.cards.length →
      ∃ d, describe_made_hand hand community samples rng = .ok (some d) ∧
        ∃ s, evaluate_best_hand (hand.cards ++ community.cards) = .ok s ∧
          d.score = s ∧ d.category = s.category ∧ d.label = score_to_label s ∧
          ∃ p, d.percentile = some p) := by
  have hsome : 3 ≤ community.cards.length →
      ∃ d, describe_made_hand hand community samples rng = .ok (some d) ∧
        ∃ s, evaluate_best_hand (hand.cards ++ community.cards) = .ok s ∧
          d.score = s ∧ d.category = s.category ∧ d.label = score_to_label s ∧
          ∃ p, d.percentile = some p := by
    intro hge
    obtain ⟨s, hs, -, -⟩ := @evaluate_spec (hand.cards ++ community.cards)
      (by rw [List.length_append]; omega)
    obtain ⟨p, hp⟩ := percentile_spec s hand community samples rng hhand hge
      hboard5 hsamples hrng
    refine ⟨⟨score_to_label s, s.category, some p, s⟩, ?_, s, hs, rfl, rfl, rfl,
      p, rfl⟩
    simp only [describe_made_hand]
    rw [if_neg (show ¬ (hand.cards ++ community.cards).length < 5 by
      rw [List.length_append]; omega)]
    rw [hs, ok_bind, hp, ok_bind]
    rfl
  refine ⟨⟨?_, ?_⟩, hsome⟩
  · intro hnone
    by_contra hge
    push_neg at hge
    obtain ⟨d, hd, -⟩ := hsome hge
    rw [hd] at hnone
    exact Option.noConfusion (Except.ok.inj hnone)
  · intro hlt
    simp only [describe_made_hand]
    rw [if_pos (by rw [List.length_append]; omega)]
    rfl

/-- Concrete hole cards for the C9 witness. -/
def witHand : Hand := ⟨[⟨.rA, .hearts⟩, ⟨.rA, .spades⟩]⟩

/-- Concrete 3-card board for the C9 witness. -/
def witBoard3 : Community := ⟨[⟨.rK, .hearts⟩, ⟨.rQ, .hearts⟩, ⟨.rJ, .hearts⟩]⟩

/-- Sampler producing 2-card draws for the C9 witness. -/
def witRng2 : Nat → List Card := fun _ => [⟨.r2, .clubs⟩, ⟨.r3, .clubs⟩]

/-- Witness for C9 at a concrete flop. -/
theorem claim_C9_witness :
    ∃ d, describe_made_hand witHand witBoard3 1 witRng2 = .ok (some d) ∧
      ∃ p, d.percentile = some p := by
  obtain ⟨-, h2⟩ := claim_C9_describe_made_hand witHand witBoard3 1 witRng2
    (by decide) (by decide) (by decide) (fun i hi => rfl)
  obtain ⟨d, hd, s, -, -, -, -, p, hp⟩ := h2 (by decide)
  exact ⟨d, hd, p, hp⟩

/-- Evaluation of `recommend_action` when equity estimation was recovered
from: the static heuristic strength drives the policy and no equity is
reported. -/
lemma recommend_action_fallback (state : PokerGameState)
    (context : DecisionContext) (rng : Nat → List Card) (st : Street)
    (hst : Street.from_community state.community = .ok st)
    (hme : maybe_estimate_equity state context rng = .ok none) :
    recommend_action state context rng = .ok
      ⟨(apply_policy (estimate_strength state.player_hand state.community)
          (compute_pot_odds state.pot_size context.pot_to_call)
          context.strategy_profile).1,
        (apply_policy (estimate_strength state.player_hand state.community)
          (compute_pot_odds state.pot_size context.pot_to_call)
          context.strategy_profile).2,
        (if (apply_policy (estimate_strength state.player_hand state.community)
              (compute_pot_odds state.pot_size context.pot_to_call)
              context.strategy_profile).1 = .raise
          then some (suggest_bet state context) else none),
        context.strategy_profile, none⟩ := by
  unfold recommend_action
  rw [hst, ok_bind, hme, ok_bind]
  rfl

/-- Evaluation of `recommend_action` when equity estimation succeeded. -/
lemma recommend_action_with_equity (state : PokerGameState)
    (context : DecisionContext) (rng : Nat → List Card) (st : Street)
    (e : EquityEstimate)
    (hst : Street.from_community state.community = .ok st)
    (hme : maybe_estimate_equity state context rng = .ok (some e)) :
    recommend_action state context rng = .ok
      ⟨(apply_policy e.equity
          (compute_pot_odds state.pot_size context.pot_to_call)
          context.strategy_profile).1,
        (apply_policy e.equity
          (compute_pot_odds state.pot_size context.pot_to_call)
          context.strategy_profile).2,
        (if (apply_policy e.equity
              (compute_pot_odds state.pot_size context.pot_to_call)
              context.strategy_profile).1 = .raise
          then some (suggest_bet state context) else none),
        context.strategy_profile, some e.equity⟩ := by
  unfold recommend_action
  rw [hst, ok_bind, hme, ok_bind]
  rfl

/-- Concrete state (pot 2) on which the claimed rounding formula differs
from the implementation. -/
def cexState : PokerGameState :=
  ⟨⟨[⟨.rA, .hearts⟩, ⟨.rA, .spades⟩]⟩, ⟨[]⟩, 100, 2⟩

/-- Context forcing the heuristic fallback (25 opponents exhaust the
deck) with an explicit minimum raise of 1. -/
def cexCtx : DecisionContext := ⟨none, some 1, .balanced, 2000, 25⟩

/-- Heuristic strength of pocket aces pre-flop. -/
lemma cex_strength :
    estimate_strength cexState.player_hand cexState.community = 0.88 := by
  unfold estimate_strength cexState
  norm_num [rank_strength, min_def, show Suit.hearts ≠ Suit.spades from by decide]

/-- The balanced policy raises at strength 0.88. -/
lemma cex_policy : apply_policy 0.88 none .balanced = (.raise, 0.88) := by
  simp only [apply_policy]
  rw [decide_eq_false (show ¬ (0.88 : ℚ) ≤ 0.38 from by norm_num)]
  rw [if_neg (by simp)]
  rw [if_pos (show (0.88 : ℚ) ≥ 0.65 from by norm_num)]
  norm_num [max_def, min_def]

/-- The suggested bet at pot 2 with minimum raise 1: the truncation
`int(1.5) = 1` makes the bet 1. -/
lemma cex_bet : suggest_bet cexState cexCtx = 1 := by
  unfold suggest_bet pyOr pyTrunc cexState cexCtx
  norm_num

/-- Full evaluation of `recommend_action` on the counterexample input. -/
lemma cex_recommend : recommend_action cexState cexCtx witRng =
    .ok ⟨.raise, 0.88, some 1, .balanced, none⟩ := by
  rw [recommend_action_fallback cexState cexCtx witRng .preFlop rfl rfl]
  have hpo : compute_pot_odds cexState.pot_size cexCtx.pot_to_call = none := rfl
  rw [hpo]
  have hprof : cexCtx.strategy_profile = .balanced := rfl
  rw [hprof, cex_strength, cex_policy, cex_bet]
  rfl

/-- Python `round(1.5)` is 2 (banker's rounding, 1 is odd). -/
lemma pyRound_three_halves : pyRound ((0.75 : ℚ) * 2) = 2 := by
  have h1 : ((0.75 : ℚ) * 2) = 3 / 2 := by norm_num
  rw [h1]
  unfold pyRound
  have hf : (⌊(3 / 2 : ℚ)⌋ : Int) = 1 := by norm_num
  rw [hf]
  norm_num

/-- C6 counterexample: on pot 2 with minimum raise 1 the engine raises
with recommended bet 1, while the claimed formula
`max(min_raise, round(0.75 * pot))` gives 2. -/
theorem claim_C6_counterexample :
    recommend_action cexState cexCtx witRng =
      .ok ⟨.raise, 0.88, some 1, .balanced, none⟩ ∧
    (1 : Int) ≠ max 1 (pyRound ((0.75 : ℚ) * 2)) := by
  refine ⟨cex_recommend, ?_⟩
  rw [pyRound_three_halves]
  decide

/-- C6 amended: whenever `recommend_action` returns raise, the
recommended bet equals `max(min_raise, int(0.75 * pot))` where `int`
truncates toward zero (not `round`), `min_raise` falls back to
`max(int(0.5 * pot), 1)` when absent or zero, and the bet is at least any
explicitly given non-zero minimum raise. -/
theorem claim_C6_raise_bet_amended (state : PokerGameState)
    (context : DecisionContext) (rng : Nat → List Card) (r : DecisionResult)
    (hok : recommend_action state context rng = .ok r)
    (hraise : r.action = .raise) :
    r.recommended_bet = some (suggest_bet state context) ∧
    suggest_bet state context =
      max (pyOr context.min_raise (max (pyTrunc ((state.pot_size : ℚ) * 0.5)) 1))
        (pyTrunc ((state.pot_size : ℚ) * 0.75)) ∧
    (∀ m, context.min_raise = some m → m ≠ 0 →
      m ≤ suggest_bet state context) := by
  refine ⟨?_, rfl, ?_⟩
  · unfold recommend_action at hok
    match hst : Street.from_community state.community with
    | .error k =>
      rw [hst, error_bind] at hok
      exact Except.noConfusion hok
    | .ok st =>
      rw [hst, ok_bind] at hok
      match hme : maybe_estimate_equity state context rng with
      | .error k =>
        rw [hme, error_bind] at hok
        exact Except.noConfusion hok
      | .ok eqi =>
        rw [hme, ok_bind, pure_eq_ok] at hok
        have hr := Except.ok.inj hok
        subst hr
        dsimp only at hraise ⊢
        rw [if_pos hraise]
  · intro m hm hm0
    have hpy : pyOr context.min_raise
        (max (pyTrunc ((state.pot_size : ℚ) * 0.5)) 1) = m := by
      rw [hm]
      unfold pyOr
      dsimp only
      rw [if_pos hm0]
    show m ≤ max (pyOr context.min_raise
      (max (pyTrunc ((state.pot_size : ℚ) * 0.5)) 1))
      (pyTrunc ((state.pot_size : ℚ) * 0.75))
    rw [hpy]
    exact le_max_left _ _

/-- Witness for the amended C6 at the concrete raising input. -/
theorem claim_C6_witness :
    (DecisionResult.mk .raise 0.88 (some 1) .balanced none).recommended_bet =
      some (suggest_bet cexState cexCtx) ∧
    suggest_bet cexState cexCtx =
      max (pyOr cexCtx.min_raise
        (max (pyTrunc ((cexState.pot_size : ℚ) * 0.5)) 1))
        (pyTrunc ((cexState.pot_size : ℚ) * 0.75)) :=
  ⟨(claim_C6_raise_bet_amended cexState cexCtx witRng _ cex_recommend rfl).1,
   (claim_C6_raise_bet_amended cexState cexCtx witRng _ cex_recommend rfl).2.1⟩

/-- A successful `exceptMap` preserves length. -/
lemma exceptMap_ok_length (f : Nat → Except Err HandScore) (l : List Nat) :
    ∀ bs, exceptMap f l = .ok bs → bs.length = l.length := by
  induction l with
  | nil =>
    intro bs h
    unfold exceptMap at h
    rw [← Except.ok.inj h]
    rfl
  | cons i is ih =>
    intro bs h
    unfold exceptMap at h
    cases hfi : f i with
    | error k => rw [hfi, error_bind] at h; exact Except.noConfusion h
    | ok b =>
      rw [hfi, ok_bind] at h
      cases hrest : exceptMap f is with
      | error k => rw [hrest, error_bind] at h; exact Except.noConfusion h
      | ok bs2 =>
        rw [hrest, ok_bind, pure_eq_ok] at h
        rw [← Except.ok.inj h]
        simp [ih bs2 hrest]

/-- With at least one opponent a scenario can only fail for lack of
cards. -/
lemma sampleOutcome_error_kind (hero board sample : List Card)
    (missing opponents : Nat) (hopp : 1 ≤ opponents) (k : Err)
    (h : sampleOutcome hero board missing opponents sample = .error k) :
    k = .insufficientCards := by
  simp only [sampleOutcome, villainScores] at h
  cases hh : evaluate_best_hand (hero ++ (board ++ sample.take missing)) with
  | error k2 =>
    rw [hh, error_bind] at h
    rw [Except.error.inj h] at hh
    exact evaluate_error_kind hh
  | ok hsc =>
    rw [hh, ok_bind] at h
    cases hm : exceptMap (fun i => evaluate_best_hand
        ((sample.drop (missing + 2 * i)).take 2 ++ (board ++ sample.take missing)))
        (List.range opponents) with
    | error k3 =>
      rw [hm, error_bind] at h
      obtain ⟨i, -, hfi⟩ := exceptMap_error _ _ _ hm
      rw [Except.error.inj h] at hfi
      exact evaluate_error_kind hfi
    | ok vs =>
      rw [hm, ok_bind] at h
      have hlen : vs.length = opponents := by
        rw [exceptMap_ok_length _ _ vs hm, List.length_range]
      have hne : vs ≠ [] := by
        intro hc
        rw [hc] at hlen
        simp at hlen
        omega
      obtain ⟨bv, hbv, -, -⟩ := foldl_maxStep_none hne
      rw [hbv] at h
      exact Except.noConfusion h

/-- With at least one opponent `estimate_equity` can only fail with the
insufficient-cards kind. -/
lemma estimate_equity_error_kind (state : PokerGameState)
    (opponents trials : Nat) (rng : Nat → List Card) (hopp : 1 ≤ opponents)
    (k : Err) (h : estimate_equity state opponents trials rng = .error k) :
    k = .insufficientCards := by
  simp only [estimate_equity] at h
  rw [if_neg (show ¬ opponents < 1 by omega)] at h
  by_cases hgt : opponents * 2 + (5 - state.community.cards.length) >
      (get_remaining_cards (state.player_hand.cards ++
        state.community.cards)).length
  · rw [if_pos hgt] at h
    exact (Except.error.inj h).symm
  · rw [if_neg hgt] at h
    cases hcf : countFold (sampleOutcome state.player_hand.cards
        state.community.cards (5 - state.community.cards.length) opponents)
        (equitySamples (get_remaining_cards (state.player_hand.cards ++
          state.community.cards)) (opponents * 2 +
          (5 - state.community.cards.length)) trials rng) (0, 0) with
    | error k2 =>
      rw [hcf, error_bind] at h
      obtain ⟨s, -, hs⟩ := countFold_error _ _ _ _ hcf
      rw [Except.error.inj h] at hs
      exact sampleOutcome_error_kind _ _ _ _ _ hopp _ hs
    | ok wt =>
      rw [hcf, ok_bind] at h
      exact Except.noConfusion h

/-- Street classification succeeds on any board of at most 5 cards. -/
lemma street_ok (community : Community) (h : community.cards.length ≤ 5) :
    ∃ st, Street.from_community community = .ok st := by
  unfold Street.from_community Community.stage
  by_cases h3 : community.cards.length < 3
  · rw [if_pos h3]
    exact ⟨.preFlop, rfl⟩
  · rw [if_neg h3]
    by_cases h4 : community.cards.length = 3
    · rw [if_pos h4]
      exact ⟨.flop, rfl⟩
    · rw [if_neg h4]
      by_cases h5 : community.cards.length = 4
      · rw [if_pos h5]
        exact ⟨.turn, rfl⟩
      · rw [if_neg h5]
        rw [if_pos (by omega)]
        exact ⟨.river, rfl⟩

/-- The guarded equity call either returns an estimate or swallows an
insufficient-cards failure. -/
lemma maybe_estimate_equity_cases (state : PokerGameState)
    (context : DecisionContext) (rng : Nat → List Card) :
    (∃ e, estimate_equity state (max 1 context.num_opponents)
        (max 200 context.equity_samples) rng = .ok e ∧
      maybe_estimate_equity state context rng = .ok (some e)) ∨
    (estimate_equity state (max 1 context.num_opponents)
        (max 200 context.equity_samples) rng = .error .insufficientCards ∧
      maybe_estimate_equity state context rng = .ok none) := by
  cases he : estimate_equity state (max 1 context.num_opponents)
      (max 200 context.equity_samples) rng with
  | ok e =>
    left
    refine ⟨e, rfl, ?_⟩
    unfold maybe_estimate_equity
    rw [he]
  | error k =>
    right
    have hk : k = .insufficientCards :=
      estimate_equity_error_kind state _ _ rng (le_max_left 1 _) k he
    subst hk
    refine ⟨rfl, ?_⟩
    unfold maybe_estimate_equity
    rw [he]
    rfl

/-- C7: under a structurally valid state, `recommend_action` always
succeeds; equity estimation inside it can only fail with the
insufficient-cards kind, in which case the recommendation is computed from
the static heuristic strength with no equity reported; no other error kind
can arise, so nothing else is swallowed by the recovery. -/
theorem claim_C7_equity_error_recovery (state : PokerGameState)
    (context : DecisionContext) (rng : Nat → List Card)
    (_hhand : state.player_hand.cards.length = 2)
    (hboard : state.community.cards.length ≤ 5) :
    (∀ k, estimate_equity state (max 1 context.num_opponents)
        (max 200 context.equity_samples) rng = .error k →
      k = .insufficientCards) ∧
    ∃ r, recommend_action state context rng = .ok r ∧
      (estimate_equity state (max 1 context.num_opponents)
          (max 200 context.equity_samples) rng = .error .insufficientCards →
        r.equity = none ∧
        (r.action, r.confidence) = apply_policy
          (estimate_strength state.player_hand state.community)
          (compute_pot_odds state.pot_size context.pot_to_call)
          context.strategy_profile) := by
  constructor
  · intro k hk
    exact estimate_equity_error_kind state _ _ rng (le_max_left 1 _) k hk
  · obtain ⟨st, hst⟩ := street_ok state.community hboard
    rcases maybe_estimate_equity_cases state context rng with
      ⟨e, hee, hme⟩ | ⟨hee, hme⟩
    · refine ⟨_, recommend_action_with_equity state context rng st e hst hme, ?_⟩
      intro hcontra
      rw [hee] at hcontra
      exact Except.noConfusion hcontra
    · refine ⟨_, recommend_action_fallback state context rng st hst hme, ?_⟩
      intro _
      exact ⟨rfl, rfl⟩

/-- Witness for C7 at a concrete state where the fallback fires. -/
theorem claim_C7_witness :
    ∃ r, recommend_action cexState cexCtx witRng = .ok r ∧ r.equity = none := by
  obtain ⟨-, r, hok, hfb⟩ :=
    claim_C7_equity_error_recovery cexState cexCtx witRng (by decide) (by decide)
  exact ⟨r, hok, (hfb (by rfl)).1⟩

/-- Witness for C5: strength 0.9 with the aggressive profile and no pot
odds yields a raise. -/
theorem claim_C5_witness :
    (apply_policy 0.9 none .aggressive).1 = .raise := by
  apply (claim_C5_apply_policy 0.9 none .aggressive).2.1.mpr
  constructor
  · intro h
    unfold foldCondition at h
    have h1 := h.1
    norm_num [claimFoldThresh] at h1
  · norm_num [claimRaiseThresh]
